import Mathlib

/-!
Verification of the slide scoring and selection engine of
`ai-service/services/content_matcher.py` (class `ContentMatcher`).

Python candidate records are dictionaries that start life with the keys
`id`, `title`, `content`, `slideType` and acquire the annotation keys
`ai_score`, `ai_reason`, `ml_score`, `combined_score`, `confidence_level`,
`action`, `cost` as the pipeline writes them in place.  We model a record
as a structure whose annotation fields are `Option`-valued: `none` means
"key absent".  Scores are modelled as rationals.

The two external effects — the generative judge call and the TF-IDF
cosine-similarity computation — are modelled as parameters: the judge as a
per-batch outcome (`JudgeResult`), the similarity as a per-index rational
(`Nat → ℚ`).  Every stage of the Python code catches its own exceptions,
so the modelled pipeline is total.
-/

namespace ContentMatcher

/-- The value written into the `cost` key: the Python code stores the int
`0` for copy-exact slides and the strings `'low'` / `'high'` otherwise. -/
inductive Cost where
  | zero
  | low
  | high
deriving DecidableEq, Repr

/-- A candidate slide record (a Python dict).  Annotation fields are
`none` until the corresponding key is written. -/
structure SlideRec where
  id : String
  title : String
  content : String
  slideType : String
  ai_score : Option ℚ := none
  ai_reason : Option String := none
  ml_score : Option ℚ := none
  combined_score : Option ℚ := none
  confidence_level : Option String := none
  action : Option String := none
  cost : Option Cost := none
deriving DecidableEq, Repr

/-- One record of the judge's parsed response: `{"index": i, "score": s,
"reason": r}` (`_parse_ai_response` output). -/
structure AIRec where
  index : Int
  score : ℚ
  reason : String
deriving DecidableEq, Repr

/-- Outcome of the judge interaction for one batch:
`noClient` — `self.openai_client` is `None` (line 130);
`apiError` — the API call raised (line 168);
`ok recs` — the call succeeded and `_parse_ai_response` produced `recs`
(which may itself be the parse-failure fallback list of ten defaults,
lines 394–395). -/
inductive JudgeResult where
  | noClient
  | apiError
  | ok (recs : List AIRec)
deriving DecidableEq, Repr

/-- The score list `ai_scores` of `_analyze_slide_batch` (lines 130–171):
a list of per-index defaults when no client is configured (line 132) or the
API call raised (line 170), the parsed response otherwise (line 167). -/
def judgeScores (jr : JudgeResult) (n : Nat) : List AIRec :=
  match jr with
  | .noClient => (List.range n).map (fun i => ⟨i, 1/2, "AI analysis unavailable"⟩)
  | .apiError => (List.range n).map (fun i => ⟨i, 1/2, "AI analysis failed"⟩)
  | .ok recs => recs

/-- Lines 173–176: for slide position `i`, take the first response record
with `index == i`, defaulting to `{'score': 0.5, 'reason': 'No specific
analysis'}`, and write `ai_score` / `ai_reason` into the record. -/
def applyAiScore (ai_scores : List AIRec) (p : Nat × SlideRec) : SlideRec :=
  let r := (ai_scores.find? (fun rec => rec.index = (p.1 : Int))).getD
    ⟨p.1, 1/2, "No specific analysis"⟩
  { p.2 with ai_score := some r.score, ai_reason := some r.reason }

/-- Model of `_analyze_slide_batch` (lines 111–182).  The Python function mutates
the input dicts in place and returns the same list object. -/
def analyzeSlideBatch (jr : JudgeResult) (slides : List SlideRec) : List SlideRec :=
  slides.enum.map (applyAiScore (judgeScores jr slides.length))

/-- Fuel-indexed slicing; with fuel ≥ `xs.length` this computes the slices
`xs[i:i+5]` for `i = 0, 5, 10, …`. -/
def chunk5Aux : Nat → List SlideRec → List (List SlideRec)
  | _, [] => []
  | 0, _ :: _ => []
  | fuel + 1, x :: xs => (x :: xs.take 4) :: chunk5Aux fuel (xs.drop 4)

/-- Batching of `_ai_score_slides` (lines 96–104): slices `[i:i+5]` for
`i = 0, 5, 10, …`. -/
def chunk5 (xs : List SlideRec) : List (List SlideRec) :=
  chunk5Aux xs.length xs

/-- Model of `_ai_score_slides` (lines 75–105): analyze the pool in batches of 5,
the judge outcome of batch number `b` being `judge b`, and concatenate. -/
def aiScoreSlides (judge : Nat → JudgeResult) (slides : List SlideRec) : List SlideRec :=
  ((chunk5 slides).enum.map (fun p => analyzeSlideBatch (judge p.1) p.2)).flatten

/-- Model of `_ml_score_slides` (lines 184–221): write the cosine similarity of
slide `i` against the query into `ml_score`.  The numeric TF-IDF
computation is a parameter `sims : Nat → ℚ`. -/
def mlScoreSlides (sims : Nat → ℚ) (slides : List SlideRec) : List SlideRec :=
  slides.enum.map (fun p => { p.2 with ml_score := some (sims p.1) })

/-- The weighted combination of line 261:
`combined_score = (ai_score * 0.7) + (ml_score * 0.3)`.  No clamping is
applied to either input. -/
def combinedScore (ai ml : ℚ) : ℚ := ai * (7/10) + ml * (3/10)

/-- Model of `_get_confidence_level` (lines 279–286). -/
def getConfidenceLevel (score : ℚ) : String :=
  if score ≥ 4/5 then "high"
  else if score ≥ 3/5 then "medium"
  else "low"

/-- Insert `x` into a descending-by-key list, after any element whose key
is ≥ the key of `x`. -/
def insertDesc {α β : Type} [LinearOrder β] (key : α → β) (x : α) : List α → List α
  | [] => [x]
  | y :: ys => if key y < key x then x :: y :: ys else y :: insertDesc key x ys

/-- Stable descending sort by a key, the extensional behaviour of Python's
`sorted(xs, key=key, reverse=True)` (stable, both in the bucket sorts of
lines 274–276 and the final sort of lines 318–321). -/
def sortDesc {α β : Type} [LinearOrder β] (key : α → β) (xs : List α) : List α :=
  xs.foldl (fun acc x => insertDesc key x acc) []

/-- A value of the `slide_scores` dict of `_categorize_slides_by_confidence`
(lines 233–249): `{'ai_score': …, 'ml_score': …, 'slide': …}`. -/
structure Entry where
  ai_score : ℚ
  ml_score : ℚ
  slide : SlideRec
deriving DecidableEq, Repr

/-- Python dict assignment `d[k] = …` / update on an insertion-ordered
dict modelled as an association list with unique keys: update the entry in
place if the key is present, append at the end otherwise (the absent case
first stores `init`, then applies the update `f`, matching lines 238–241). -/
def upsert (k : String) (f : Entry → Entry) (init : Entry) :
    List (String × Entry) → List (String × Entry)
  | [] => [(k, f init)]
  | (k', e) :: rest =>
    if k' = k then (k', f e) :: rest else (k', e) :: upsert k f init rest

/-- The two accumulation loops of `_categorize_slides_by_confidence`
(lines 233–249): first the AI loop, then the ML loop, each reading the
score off the record (`slide.get('ai_score', 0)` / `slide.get('ml_score', 0)`)
and storing the record itself under its id. -/
def buildScores (aiSlides mlSlides : List SlideRec) : List (String × Entry) :=
  let d1 := aiSlides.foldl
    (fun d s => upsert s.id
      (fun e => { e with ai_score := s.ai_score.getD 0, slide := s })
      ⟨0, 0, s⟩ d) []
  mlSlides.foldl
    (fun d s => upsert s.id
      (fun e => { e with ml_score := s.ml_score.getD 0, slide := s })
      ⟨0, 0, s⟩ d) d1

/-- Lines 256–264: compute the combined score of a dict entry and write
`combined_score` and `confidence_level` into its record. -/
def annotateEntry (e : Entry) : SlideRec :=
  let c := combinedScore e.ai_score e.ml_score
  { e.slide with combined_score := some c,
                 confidence_level := some (getConfidenceLevel c) }

/-- Lookup of `x['combined_score']` as used by the sort keys; every record reaching
a sort carries the key (written by `annotateEntry`). -/
def ckey (r : SlideRec) : ℚ := r.combined_score.getD 0

/-- The three confidence buckets returned by
`_categorize_slides_by_confidence`. -/
structure Categorized where
  high : List SlideRec
  medium : List SlideRec
  low : List SlideRec
deriving DecidableEq, Repr

/-- Model of `_categorize_slides_by_confidence` (lines 223–277): build the score
dict, annotate every record, split on the thresholds of lines 266–271 and
sort each bucket by combined score descending (lines 274–276). -/
def categorizeSlides (aiSlides mlSlides : List SlideRec) : Categorized :=
  let anns := (buildScores aiSlides mlSlides).map (fun kv => annotateEntry kv.2)
  { high := sortDesc ckey (anns.filter (fun r => 4/5 ≤ ckey r))
    medium := sortDesc ckey (anns.filter (fun r => ¬ 4/5 ≤ ckey r ∧ 3/5 ≤ ckey r))
    low := sortDesc ckey (anns.filter (fun r => ¬ 4/5 ≤ ckey r ∧ ¬ 3/5 ≤ ckey r)) }

/-- Write `action` and `cost` into a selected record (lines 296–297,
303–304, 313–314). -/
def mark (a : String) (c : Cost) (r : SlideRec) : SlideRec :=
  { r with action := some a, cost := some c }

/-- The priority dict of line 320:
`{'copy_exact': 0, 'minor_enhancement': 1, 'full_generation': 2}[x['action']]`.
Every selected record carries one of the three actions, so the catch-all
branch is unreachable in the pipeline. -/
def actionPriority (r : SlideRec) : Nat :=
  match r.action with
  | some "copy_exact" => 0
  | some "minor_enhancement" => 1
  | some "full_generation" => 2
  | _ => 3

/-- The sort key of lines 318–321: Python sorts by the tuple
`(combined_score, priority)` with `reverse=True`, i.e. descending
lexicographically — the `reverse` flag applies to the priority component
as well. -/
def selKey (r : SlideRec) : ℚ ×ₗ ℕ := toLex (ckey r, actionPriority r)

/-- Model of `_select_slides_optimized` (lines 288–323): up to 8 high slides marked
`copy_exact`/0, up to 5 medium marked `minor_enhancement`/'low', and, only
when fewer than 10 slides are selected so far, low slides filling the
remaining capacity of 15, marked `full_generation`/'high'; finally sort by
the reversed `(combined_score, priority)` tuple and truncate to 15. -/
def selectSlidesOptimized (cats : Categorized) : List SlideRec :=
  let base := (cats.high.take 8).map (mark "copy_exact" .zero) ++
    (cats.medium.take 5).map (mark "minor_enhancement" .low)
  let remaining := 15 - base.length
  let selected :=
    if remaining > 0 ∧ base.length < 10 then
      base ++ (cats.low.take remaining).map (mark "full_generation" .high)
    else base
  (sortDesc selKey selected).take 15

/-- Model of `match_slides` (lines 36–73): empty pool short-circuits to `[]`;
otherwise AI scoring, ML scoring (both mutating the same records, so the
categorization step receives the same fully annotated list twice),
categorization and cost-optimized selection.  Each stage handles its own
failures, so the top-level `except` fallback (line 73) is unreachable in
the model. -/
def matchSlides (judge : Nat → JudgeResult) (sims : Nat → ℚ)
    (slides : List SlideRec) : List SlideRec :=
  if slides = [] then []
  else
    let scored := mlScoreSlides sims (aiScoreSlides judge slides)
    selectSlidesOptimized (categorizeSlides scored scored)

/-- Python's substring test `pat in s.lower()`. -/
def containsSub (s pat : String) : Bool :=
  decide (pat.toList <:+: s.toLower.toList)

/-- The target-length derivation of `_select_slides_by_requirements`
(lines 333–341): an ordered `if`/`elif` chain on keywords of the
lower-cased use-case string. -/
def targetSlidesFor (useCase : String) : Nat :=
  if containsSub useCase "pitch" || containsSub useCase "demo" then 8
  else if containsSub useCase "training" || containsSub useCase "education" then 15
  else if containsSub useCase "report" || containsSub useCase "analysis" then 12
  else 10

/-- Model of `_get_max_slides_per_type` (lines 368–380).  `int(x)` on the
non-negative products is truncation, i.e. the rational floor; on the four
reachable targets (8, 10, 12, 15) the Python float products and the exact
rational products truncate identically. -/
def getMaxSlidesPerType (slideType : String) (totalSlides : Nat) : Nat :=
  if slideType = "title" then 2
  else if slideType = "content" then ((totalSlides : ℚ) * (4/10)).floor.toNat
  else if slideType = "chart" then ((totalSlides : ℚ) * (2/10)).floor.toNat
  else if slideType = "image" then ((totalSlides : ℚ) * (15/100)).floor.toNat
  else if slideType = "quote" then ((totalSlides : ℚ) * (1/10)).floor.toNat
  else if slideType = "conclusion" then 2
  else ((totalSlides : ℚ) * (1/10)).floor.toNat

/-- Update-or-append `slide_types[slide_type] = type_count + 1`
(line 357) on the insertion-ordered counter dict. -/
def setCount (ty : String) (c : Nat) : List (String × Nat) → List (String × Nat)
  | [] => [(ty, c)]
  | (ty', c') :: rest =>
    if ty' = ty then (ty', c) :: rest else (ty', c') :: setCount ty c rest

/-- One iteration of the type-mix loop of `_select_slides_by_requirements`
(lines 347–357): admit the candidate only while its type's cap and the
target length are not yet reached. -/
def mixStep (target : Nat) (st : List Entry × List (String × Nat)) (e : Entry) :
    List Entry × List (String × Nat) :=
  let ty := e.slide.slideType
  let cnt := (st.2.lookup ty).getD 0
  if cnt < getMaxSlidesPerType ty target ∧ st.1.length < target then
    (st.1 ++ [e], setCount ty (cnt + 1) st.2)
  else st

/-- The type-mix phase of `_select_slides_by_requirements` (lines 344–357). -/
def mixPhase (target : Nat) (sortedSlides : List Entry) : List Entry :=
  (sortedSlides.foldl (mixStep target) ([], [])).1

/-- The guard of the fill `while` loop (line 360). -/
def fillGuard (target : Nat) (sortedSlides selected : List Entry) : Bool :=
  selected.length < target && selected.length < sortedSlides.length

/-- One pass of the inner `for` of the fill loop (lines 361–364): append
the first candidate that is not already a member (Python `not in`, i.e.
record equality) and `break`; if every candidate is already a member the
pass changes nothing — and the `while` loop then never terminates. -/
def fillStep (sortedSlides selected : List Entry) : List Entry :=
  match sortedSlides.find? (fun e => ¬ e ∈ selected) with
  | some e => selected ++ [e]
  | none => selected

/-- The fill `while` loop (lines 359–364), indexed by fuel: the source
loop has no fuel and runs `fillStep` for as long as `fillGuard` holds. -/
def fillLoop (fuel target : Nat) (sortedSlides : List Entry) (selected : List Entry) :
    List Entry :=
  match fuel with
  | 0 => selected
  | fuel + 1 =>
    if fillGuard target sortedSlides selected then
      fillLoop fuel target sortedSlides (fillStep sortedSlides selected)
    else selected

/-- Model of `_select_slides_by_requirements` (lines 325–366), with the fill loop
given fuel `sortedSlides.length` (enough for every terminating run). -/
def selectSlidesByRequirements (sortedSlides : List Entry) (useCase : String) :
    List Entry :=
  let target := targetSlidesFor useCase
  let filled := fillLoop sortedSlides.length target sortedSlides
    (mixPhase target sortedSlides)
  filled.take target

/-! ### Concrete records and pools used by the claim theorems -/

/-- The per-record similarity value, `x['ml_score']` with default 0. -/
def mlv (r : SlideRec) : ℚ := r.ml_score.getD 0

/-- Clamping to the unit interval, as the specification's wording
requires. -/
def clamp01 (x : ℚ) : ℚ := max 0 (min 1 x)

/-- The fusion formula as the specification words it, for comparison with
the source's `combinedScore`: `0.7 × judge + 0.3 × similarity` with both
inputs pre-clamped to `[0,1]`.  The source applies no clamp. -/
def combinedScoreSpec (ai ml : ℚ) : ℚ :=
  clamp01 ai * (7/10) + clamp01 ml * (3/10)

/-- A record whose judge score 2 escapes the unit interval; parsed judge
responses are not validated, so any rational can reach fusion. -/
def outOfRangeRec : SlideRec :=
  { id := "a", title := "t", content := "c", slideType := "content",
    ai_score := some 2, ml_score := some 0 }

/-- A high-tier record with combined score 0.8. -/
def tiedHighRec : SlideRec :=
  { id := "a", title := "t", content := "c", slideType := "content",
    combined_score := some (4/5), confidence_level := some "high" }

/-- A medium-tier record also with combined score 0.8. -/
def tiedMediumRec : SlideRec :=
  { id := "b", title := "u", content := "d", slideType := "content",
    combined_score := some (4/5), confidence_level := some "medium" }

/-- A categorization with one high- and one medium-tier record tied at
combined score 0.8: the concrete input on which the selection sort's
tie-break runs backwards. -/
def tiedCats : Categorized :=
  { high := [tiedHighRec], medium := [tiedMediumRec], low := [] }

/-- A high-tier record for the C4 witness. -/
def c4HighRec : SlideRec :=
  { id := "w", title := "t", content := "c", slideType := "content",
    combined_score := some 1, confidence_level := some "high" }

/-- The single-record categorization for the C4 witness. -/
def c4Cats : Categorized := { high := [c4HighRec], medium := [], low := [] }

/-- A plain input candidate record used by several concrete runs. -/
def baseRec : SlideRec :=
  { id := "s1", title := "Title", content := "Body", slideType := "content" }

/-- The record produced by the batch fallback for `baseRec`. -/
def c5OutRec : SlideRec :=
  { baseRec with ai_score := some (1/2),
                 ai_reason := some "AI analysis unavailable" }

/-- The fully annotated record that the one-candidate judge-less run
returns (aliasing its input record in the source). -/
def c9OutRec : SlideRec :=
  { baseRec with ai_score := some (1/2),
                 ai_reason := some "AI analysis unavailable",
                 ml_score := some 0,
                 combined_score := some (7/20),
                 confidence_level := some "low",
                 action := some "full_generation",
                 cost := some .high }

/-- A second plain candidate with a distinct identifier. -/
def baseRec2 : SlideRec :=
  { id := "s2", title := "Other", content := "More", slideType := "chart" }

/-- A title-type scored candidate; three equal copies exhaust the title
cap of 2 and then starve the fill loop. -/
def dupEntry : Entry :=
  ⟨0, 0, { id := "d", title := "T", content := "C", slideType := "title" }⟩

/-- Two distinct scored candidates for the C10 witness. -/
def distinctEntry1 : Entry :=
  ⟨0, 0, { id := "x1", title := "A", content := "a", slideType := "content" }⟩

/-- Second distinct candidate. -/
def distinctEntry2 : Entry :=
  ⟨0, 0, { id := "x2", title := "B", content := "b", slideType := "content" }⟩

/-- Eleven candidates with distinct identifiers; with no judge and zero
similarity all fall into the low-confidence tier. -/
def pool11 : List SlideRec := [{ id := "a1", title := "t1", content := "c1", slideType := "content" }, { id := "a2", title := "t2", content := "c2", slideType := "content" }, { id := "a3", title := "t3", content := "c3", slideType := "content" }, { id := "a4", title := "t4", content := "c4", slideType := "content" }, { id := "a5", title := "t5", content := "c5", slideType := "content" }, { id := "a6", title := "t6", content := "c6", slideType := "content" }, { id := "a7", title := "t7", content := "c7", slideType := "content" }, { id := "a8", title := "t8", content := "c8", slideType := "content" }, { id := "a9", title := "t9", content := "c9", slideType := "content" }, { id := "a10", title := "t10", content := "c10", slideType := "content" }, { id := "a11", title := "t11", content := "c11", slideType := "content" }]

/-! ### Properties of the stable descending sort -/

theorem insertDesc_perm {α β : Type} [LinearOrder β] (key : α → β) (x : α) :
    ∀ l : List α, List.Perm (insertDesc key x l) (x :: l) := by
  intro l
  induction l with
  | nil => simp [insertDesc]
  | cons y ys ih =>
    simp only [insertDesc]
    by_cases h : key y < key x
    · simp [h]
    · rw [if_neg h]
      exact (ih.cons y).trans (List.Perm.swap x y ys)

theorem mem_insertDesc {α β : Type} [LinearOrder β] (key : α → β) (x z : α)
    (l : List α) : z ∈ insertDesc key x l ↔ z = x ∨ z ∈ l := by
  rw [(insertDesc_perm key x l).mem_iff]
  simp

theorem insertDesc_pairwise {α β : Type} [LinearOrder β] (key : α → β) (x : α)
    (l : List α) (h : l.Pairwise (fun a b => key b ≤ key a)) :
    (insertDesc key x l).Pairwise (fun a b => key b ≤ key a) := by
  induction l with
  | nil => simp [insertDesc]
  | cons y ys ih =>
    rcases List.pairwise_cons.mp h with ⟨hy, hys⟩
    simp only [insertDesc]
    by_cases hlt : key y < key x
    · rw [if_pos hlt]
      refine List.pairwise_cons.mpr ⟨?_, h⟩
      intro z hz
      rcases List.mem_cons.mp hz with rfl | hz
      · exact le_of_lt hlt
      · exact (hy z hz).trans (le_of_lt hlt)
    · rw [if_neg hlt]
      refine List.pairwise_cons.mpr ⟨?_, ih hys⟩
      intro z hz
      rcases (mem_insertDesc key x z ys).mp hz with rfl | hz
      · exact not_lt.mp hlt
      · exact hy z hz

theorem sortDesc_aux_perm {α β : Type} [LinearOrder β] (key : α → β) :
    ∀ (xs acc : List α),
      List.Perm (xs.foldl (fun acc x => insertDesc key x acc) acc) (acc ++ xs) := by
  intro xs
  induction xs with
  | nil => simp
  | cons x xs ih =>
    intro acc
    have h1 : List.Perm (xs.foldl (fun acc x => insertDesc key x acc)
        (insertDesc key x acc)) (insertDesc key x acc ++ xs) := ih _
    have h2 : List.Perm (insertDesc key x acc ++ xs) ((x :: acc) ++ xs) :=
      (insertDesc_perm key x acc).append_right xs
    exact (h1.trans h2).trans List.perm_middle.symm

theorem sortDesc_perm {α β : Type} [LinearOrder β] (key : α → β) (xs : List α) :
    List.Perm (sortDesc key xs) xs := by
  simpa using sortDesc_aux_perm key xs []

theorem sortDesc_length {α β : Type} [LinearOrder β] (key : α → β) (xs : List α) :
    (sortDesc key xs).length = xs.length :=
  (sortDesc_perm key xs).length_eq

theorem mem_sortDesc {α β : Type} [LinearOrder β] (key : α → β) (x : α)
    (xs : List α) : x ∈ sortDesc key xs ↔ x ∈ xs :=
  (sortDesc_perm key xs).mem_iff

theorem sortDesc_pairwise {α β : Type} [LinearOrder β] (key : α → β) (xs : List α) :
    (sortDesc key xs).Pairwise (fun a b => key b ≤ key a) := by
  suffices h : ∀ acc : List α, acc.Pairwise (fun a b => key b ≤ key a) →
      (xs.foldl (fun acc x => insertDesc key x acc) acc).Pairwise
        (fun a b => key b ≤ key a) from h [] (by simp)
  induction xs with
  | nil => intro acc hacc; simpa using hacc
  | cons x xs ih =>
    intro acc hacc
    exact ih (insertDesc key x acc) (insertDesc_pairwise key x acc hacc)

/-! ### Properties of the score dictionary -/

theorem upsert_ne_nil (k : String) (f : Entry → Entry) (init : Entry)
    (d : List (String × Entry)) : upsert k f init d ≠ [] := by
  cases d with
  | nil => simp [upsert]
  | cons kv rest =>
    obtain ⟨k', e⟩ := kv
    by_cases h : k' = k <;> simp [upsert, h]

theorem foldl_upsert_ne_nil (g : SlideRec → Entry → Entry) (mkInit : SlideRec → Entry)
    (l : List SlideRec) (d : List (String × Entry)) (hd : d ≠ []) :
    l.foldl (fun d s => upsert s.id (g s) (mkInit s) d) d ≠ [] := by
  induction l generalizing d with
  | nil => simpa
  | cons s l ih => exact ih _ (upsert_ne_nil _ _ _ _)

theorem buildScores_ne_nil (aiSlides mlSlides : List SlideRec)
    (h : aiSlides ≠ []) : buildScores aiSlides mlSlides ≠ [] := by
  unfold buildScores
  apply foldl_upsert_ne_nil
  cases aiSlides with
  | nil => exact absurd rfl h
  | cons s l =>
    simp only [List.foldl_cons]
    exact foldl_upsert_ne_nil _ _ l _ (upsert_ne_nil _ _ _ _)

theorem mem_keys_upsert_self (k : String) (f : Entry → Entry) (init : Entry)
    (d : List (String × Entry)) : k ∈ (upsert k f init d).map Prod.fst := by
  induction d with
  | nil => simp [upsert]
  | cons kv rest ih =>
    obtain ⟨k', e⟩ := kv
    by_cases h : k' = k <;> simp [upsert, h, ih]

theorem mem_keys_upsert_of_mem (k k' : String) (f : Entry → Entry) (init : Entry)
    (d : List (String × Entry)) (h : k' ∈ d.map Prod.fst) :
    k' ∈ (upsert k f init d).map Prod.fst := by
  induction d with
  | nil => simp at h
  | cons kv rest ih =>
    obtain ⟨k₀, e⟩ := kv
    simp only [List.map_cons, List.mem_cons] at h
    by_cases hk : k₀ = k
    · rcases h with h | h <;> simp [upsert, hk, h]
    · rcases h with h | h
      · simp [upsert, hk, h]
      · simp [upsert, hk, ih h]

theorem keys_subset_foldl_upsert (g : SlideRec → Entry → Entry)
    (mkInit : SlideRec → Entry) (l : List SlideRec) (d : List (String × Entry))
    (k : String) (h : k ∈ d.map Prod.fst) :
    k ∈ (l.foldl (fun d s => upsert s.id (g s) (mkInit s) d) d).map Prod.fst := by
  induction l generalizing d with
  | nil => simpa using h
  | cons s l ih =>
    simp only [List.foldl_cons]
    exact ih _ (mem_keys_upsert_of_mem _ _ _ _ _ h)

theorem id_mem_keys_foldl_upsert (g : SlideRec → Entry → Entry)
    (mkInit : SlideRec → Entry) (l : List SlideRec) (d : List (String × Entry))
    (s : SlideRec) (hs : s ∈ l) :
    s.id ∈ (l.foldl (fun d s => upsert s.id (g s) (mkInit s) d) d).map Prod.fst := by
  induction l generalizing d with
  | nil => simp at hs
  | cons t l ih =>
    simp only [List.foldl_cons]
    rcases List.mem_cons.mp hs with rfl | hs
    · exact keys_subset_foldl_upsert _ _ _ _ _ (mem_keys_upsert_self _ _ _ _)
    · exact ih _ hs

/-- When the key is already present, `upsert` only rewrites the stored
entry: every member of the result is an old member or the rewritten one. -/
theorem mem_upsert_of_key_mem (k : String) (f : Entry → Entry) (init : Entry)
    (d : List (String × Entry)) (hk : k ∈ d.map Prod.fst) (kv : String × Entry)
    (h : kv ∈ upsert k f init d) :
    kv ∈ d ∨ ∃ e, (k, e) ∈ d ∧ kv.2 = f e := by
  induction d with
  | nil => simp at hk
  | cons kv₀ rest ih =>
    obtain ⟨k₀, e₀⟩ := kv₀
    by_cases hk₀ : k₀ = k
    · simp only [upsert, if_pos hk₀, List.mem_cons] at h
      rcases h with h | h
      · refine Or.inr ⟨e₀, by simp [hk₀], ?_⟩
        rw [h]
      · exact Or.inl (List.mem_cons_of_mem _ h)
    · simp only [upsert, if_neg hk₀, List.mem_cons] at h
      rcases h with h | h
      · exact Or.inl (h ▸ List.mem_cons_self _ _)
      · have hk' : k ∈ rest.map Prod.fst := by
          simp only [List.map_cons, List.mem_cons] at hk
          rcases hk with hk | hk
          · exact absurd hk.symm hk₀
          · exact hk
        rcases ih hk' h with h' | ⟨e, he, h2⟩
        · exact Or.inl (List.mem_cons_of_mem _ h')
        · exact Or.inr ⟨e, List.mem_cons_of_mem _ he, h2⟩

/-- Invariant transport along one of the accumulation loops: if every entry
of the dict satisfies `P`, every key hit by the loop is already present,
and the written update preserves `P`, then every entry of the resulting
dict satisfies `P`. -/
theorem foldl_upsert_inv (P : Entry → Prop) (g : SlideRec → Entry → Entry)
    (mkInit : SlideRec → Entry) (l : List SlideRec) (d : List (String × Entry))
    (hd : ∀ kv ∈ d, P kv.2)
    (hkeys : ∀ s ∈ l, s.id ∈ d.map Prod.fst)
    (hg : ∀ s ∈ l, ∀ e, P e → P (g s e)) :
    ∀ kv ∈ l.foldl (fun d s => upsert s.id (g s) (mkInit s) d) d, P kv.2 := by
  induction l generalizing d with
  | nil => simpa using hd
  | cons s l ih =>
    simp only [List.foldl_cons]
    refine ih _ ?_ ?_ (fun t ht => hg t (List.mem_cons_of_mem _ ht))
    · intro kv hkv
      rcases mem_upsert_of_key_mem _ _ _ _ (hkeys s (List.mem_cons_self _ _)) _ hkv with
        h | ⟨e, he, h2⟩
      · exact hd _ h
      · rw [h2]
        exact hg s (List.mem_cons_self _ _) e (hd _ he)
    · intro t ht
      exact mem_keys_upsert_of_mem _ _ _ _ _ (hkeys t (List.mem_cons_of_mem _ ht))

/-! ### Structure of the categorization and selection output -/

theorem categorizeSlides_high_perm (a b : List SlideRec) :
    List.Perm (categorizeSlides a b).high
      (((buildScores a b).map (fun kv => annotateEntry kv.2)).filter
        (fun r => decide (4/5 ≤ ckey r))) :=
  sortDesc_perm _ _

theorem categorizeSlides_medium_perm (a b : List SlideRec) :
    List.Perm (categorizeSlides a b).medium
      (((buildScores a b).map (fun kv => annotateEntry kv.2)).filter
        (fun r => decide (¬ 4/5 ≤ ckey r ∧ 3/5 ≤ ckey r))) :=
  sortDesc_perm _ _

theorem categorizeSlides_low_perm (a b : List SlideRec) :
    List.Perm (categorizeSlides a b).low
      (((buildScores a b).map (fun kv => annotateEntry kv.2)).filter
        (fun r => decide (¬ 4/5 ≤ ckey r ∧ ¬ 3/5 ≤ ckey r))) :=
  sortDesc_perm _ _

/-- Every record of a bucket is an annotated dict entry. -/
theorem mem_categorizeSlides_bucket (a b : List SlideRec) (x : SlideRec)
    (hx : x ∈ (categorizeSlides a b).high ∨ x ∈ (categorizeSlides a b).medium ∨
      x ∈ (categorizeSlides a b).low) :
    ∃ kv ∈ buildScores a b, x = annotateEntry kv.2 := by
  have hx' : x ∈ ((buildScores a b).map (fun kv => annotateEntry kv.2)) := by
    rcases hx with h | h | h
    · exact List.mem_filter.mp ((categorizeSlides_high_perm a b).subset h) |>.1
    · exact List.mem_filter.mp ((categorizeSlides_medium_perm a b).subset h) |>.1
    · exact List.mem_filter.mp ((categorizeSlides_low_perm a b).subset h) |>.1
  rcases List.mem_map.mp hx' with ⟨kv, hkv, hx2⟩
  exact ⟨kv, hkv, hx2.symm⟩

/-- If the score dict is non-empty, at least one bucket is non-empty. -/
theorem categorizeSlides_bucket_ne_nil (a b : List SlideRec)
    (h : buildScores a b ≠ []) :
    (categorizeSlides a b).high ≠ [] ∨ (categorizeSlides a b).medium ≠ [] ∨
      (categorizeSlides a b).low ≠ [] := by
  obtain ⟨kv, hkv⟩ := List.exists_mem_of_ne_nil _ h
  have hmem : annotateEntry kv.2 ∈ (buildScores a b).map (fun kv => annotateEntry kv.2) :=
    List.mem_map.mpr ⟨kv, hkv, rfl⟩
  set x := annotateEntry kv.2 with hx
  by_cases h1 : 4/5 ≤ ckey x
  · refine Or.inl (List.ne_nil_of_length_pos ?_)
    rw [(categorizeSlides_high_perm a b).length_eq]
    exact List.length_pos_of_mem (List.mem_filter.mpr ⟨hmem, by simp [h1]⟩)
  · by_cases h2 : 3/5 ≤ ckey x
    · refine Or.inr (Or.inl (List.ne_nil_of_length_pos ?_))
      rw [(categorizeSlides_medium_perm a b).length_eq]
      exact List.length_pos_of_mem (List.mem_filter.mpr ⟨hmem, by simp [h1, h2]⟩)
    · refine Or.inr (Or.inr (List.ne_nil_of_length_pos ?_))
      rw [(categorizeSlides_low_perm a b).length_eq]
      exact List.length_pos_of_mem (List.mem_filter.mpr ⟨hmem, by simp [h1, h2]⟩)

/-- The output of the cost-optimized selection never exceeds 15 records. -/
theorem selectSlidesOptimized_length_le (cats : Categorized) :
    (selectSlidesOptimized cats).length ≤ 15 := by
  unfold selectSlidesOptimized
  exact (List.length_take_le _ _).trans (le_refl 15)

/-- Membership characterization of the cost-optimized selection: every
output record is a bucket record marked with the action and cost of its
tier. -/
theorem mem_selectSlidesOptimized (cats : Categorized) (x : SlideRec)
    (hx : x ∈ selectSlidesOptimized cats) :
    (∃ r ∈ cats.high, x = mark "copy_exact" .zero r) ∨
    (∃ r ∈ cats.medium, x = mark "minor_enhancement" .low r) ∨
    (∃ r ∈ cats.low, x = mark "full_generation" .high r) := by
  unfold selectSlidesOptimized at hx
  have hx1 := (mem_sortDesc _ x _).mp (List.mem_of_mem_take hx)
  have hbase : ∀ y, y ∈ (cats.high.take 8).map (mark "copy_exact" .zero) ++
      (cats.medium.take 5).map (mark "minor_enhancement" .low) →
      (∃ r ∈ cats.high, y = mark "copy_exact" .zero r) ∨
      (∃ r ∈ cats.medium, y = mark "minor_enhancement" .low r) ∨
      (∃ r ∈ cats.low, y = mark "full_generation" .high r) := by
    intro y hy
    rcases List.mem_append.mp hy with hy | hy
    · rcases List.mem_map.mp hy with ⟨r, hr, hy2⟩
      exact Or.inl ⟨r, List.mem_of_mem_take hr, hy2.symm⟩
    · rcases List.mem_map.mp hy with ⟨r, hr, hy2⟩
      exact Or.inr (Or.inl ⟨r, List.mem_of_mem_take hr, hy2.symm⟩)
  by_cases hc : 15 - ((cats.high.take 8).map (mark "copy_exact" .zero) ++
      (cats.medium.take 5).map (mark "minor_enhancement" .low)).length > 0 ∧
      ((cats.high.take 8).map (mark "copy_exact" .zero) ++
        (cats.medium.take 5).map (mark "minor_enhancement" .low)).length < 10
  · rw [if_pos hc] at hx1
    rcases List.mem_append.mp hx1 with hy | hy
    · exact hbase x hy
    · rcases List.mem_map.mp hy with ⟨r, hr, hy2⟩
      exact Or.inr (Or.inr ⟨r, List.mem_of_mem_take hr, hy2.symm⟩)
  · rw [if_neg hc] at hx1
    exact hbase x hx1

/-- If any bucket is non-empty, the cost-optimized selection is non-empty:
the high and medium tiers contribute directly, and an otherwise-empty
selection always passes the `len < 10` backfill gate. -/
theorem selectSlidesOptimized_ne_nil (cats : Categorized)
    (h : cats.high ≠ [] ∨ cats.medium ≠ [] ∨ cats.low ≠ []) :
    selectSlidesOptimized cats ≠ [] := by
  unfold selectSlidesOptimized
  have hne : (if 15 - ((cats.high.take 8).map (mark "copy_exact" .zero) ++
      (cats.medium.take 5).map (mark "minor_enhancement" .low)).length > 0 ∧
      ((cats.high.take 8).map (mark "copy_exact" .zero) ++
        (cats.medium.take 5).map (mark "minor_enhancement" .low)).length < 10 then
      ((cats.high.take 8).map (mark "copy_exact" .zero) ++
        (cats.medium.take 5).map (mark "minor_enhancement" .low)) ++
        (cats.low.take (15 - ((cats.high.take 8).map (mark "copy_exact" .zero) ++
          (cats.medium.take 5).map (mark "minor_enhancement" .low)).length)).map
          (mark "full_generation" .high)
    else ((cats.high.take 8).map (mark "copy_exact" .zero) ++
      (cats.medium.take 5).map (mark "minor_enhancement" .low))) ≠ [] := by
    rcases h with h | h | h
    · have hb : (cats.high.take 8).map (mark "copy_exact" .zero) ≠ [] := by
        simp [List.take_eq_nil_iff, h]
      split
      · intro hcon
        rcases List.append_eq_nil.mp hcon with ⟨hcon1, _⟩
        exact hb (List.append_eq_nil.mp hcon1).1
      · intro hcon
        exact hb (List.append_eq_nil.mp hcon).1
    · have hb : (cats.medium.take 5).map (mark "minor_enhancement" .low) ≠ [] := by
        simp [List.take_eq_nil_iff, h]
      split
      · intro hcon
        rcases List.append_eq_nil.mp hcon with ⟨hcon1, _⟩
        exact hb (List.append_eq_nil.mp hcon1).2
      · intro hcon
        exact hb (List.append_eq_nil.mp hcon).2
    · by_cases hbase : ((cats.high.take 8).map (mark "copy_exact" .zero) ++
        (cats.medium.take 5).map (mark "minor_enhancement" .low)) = []
      · rw [if_pos]
        · intro hcon
          rcases List.append_eq_nil.mp hcon with ⟨_, hcon2⟩
          have : cats.low.take (15 - ((cats.high.take 8).map (mark "copy_exact" .zero) ++
              (cats.medium.take 5).map (mark "minor_enhancement" .low)).length) = [] :=
            List.map_eq_nil_iff.mp hcon2
          rw [List.take_eq_nil_iff] at this
          rcases this with this | this
          · rw [hbase] at this
            simp at this
          · exact h this
        · rw [hbase]
          simp
      · split
        · intro hcon
          exact hbase (List.append_eq_nil.mp hcon).1
        · exact hbase
  intro hcon
  rw [List.take_eq_nil_iff] at hcon
  rcases hcon with hcon | hcon
  · simp at hcon
  · have hlen := congrArg List.length hcon
    rw [sortDesc_length] at hlen
    exact hne (List.length_eq_zero.mp hlen)

/-- C2 (amended): low-confidence candidates are selected only when the
running total of high- and medium-tier selections is still below 10, and
then they fill the whole remaining capacity of the 15-slide cap — possibly
padding the deck beyond the minimum viable size of 10.  The number of
low-tier (`full_generation`) records is exactly this function of the
bucket sizes. -/
theorem C2_low_backfill_count (cats : Categorized) :
    (selectSlidesOptimized cats).countP
        (fun r => r.action == some "full_generation") =
      if min 8 cats.high.length + min 5 cats.medium.length < 10 then
        min (15 - (min 8 cats.high.length + min 5 cats.medium.length))
          cats.low.length
      else 0 := by
  simp only [selectSlidesOptimized]
  have hbl : ((cats.high.take 8).map (mark "copy_exact" .zero) ++
      (cats.medium.take 5).map (mark "minor_enhancement" .low)).length =
      min 8 cats.high.length + min 5 cats.medium.length := by
    simp [List.length_append, List.length_take]
  have hbase0 : ((cats.high.take 8).map (mark "copy_exact" .zero) ++
      (cats.medium.take 5).map (mark "minor_enhancement" .low)).countP
      (fun r => r.action == some "full_generation") = 0 := by
    rw [List.countP_eq_zero]
    intro a ha
    rcases List.mem_append.mp ha with ha | ha
    · rcases List.mem_map.mp ha with ⟨r, _, hr⟩
      rw [← hr]
      simp [mark]
    · rcases List.mem_map.mp ha with ⟨r, _, hr⟩
      rw [← hr]
      simp [mark]
  by_cases hc : min 8 cats.high.length + min 5 cats.medium.length < 10
  · rw [if_pos hc]
    have hcond : 15 - ((cats.high.take 8).map (mark "copy_exact" .zero) ++
        (cats.medium.take 5).map (mark "minor_enhancement" .low)).length > 0 ∧
        ((cats.high.take 8).map (mark "copy_exact" .zero) ++
          (cats.medium.take 5).map (mark "minor_enhancement" .low)).length < 10 := by
      rw [hbl]
      omega
    rw [if_pos hcond]
    have hlen : (((cats.high.take 8).map (mark "copy_exact" .zero) ++
        (cats.medium.take 5).map (mark "minor_enhancement" .low)) ++
        (cats.low.take (15 - ((cats.high.take 8).map (mark "copy_exact" .zero) ++
          (cats.medium.take 5).map (mark "minor_enhancement" .low)).length)).map
          (mark "full_generation" .high)).length ≤ 15 := by
      rw [List.length_append, List.length_map, List.length_take, hbl]
      omega
    rw [List.take_of_length_le (by rw [sortDesc_length]; exact hlen),
      (sortDesc_perm selKey _).countP_eq, List.countP_append, hbase0]
    have hfull : ((cats.low.take (15 - ((cats.high.take 8).map (mark "copy_exact" .zero) ++
        (cats.medium.take 5).map (mark "minor_enhancement" .low)).length)).map
          (mark "full_generation" .high)).countP
          (fun r => r.action == some "full_generation") =
        ((cats.low.take (15 - ((cats.high.take 8).map (mark "copy_exact" .zero) ++
          (cats.medium.take 5).map (mark "minor_enhancement" .low)).length)).map
            (mark "full_generation" .high)).length := by
      rw [List.countP_eq_length]
      intro a ha
      rcases List.mem_map.mp ha with ⟨r, _, hr⟩
      rw [← hr]
      simp [mark]
    rw [hfull, List.length_map, List.length_take, hbl]
    omega
  · rw [if_neg hc]
    have hcond : ¬ (15 - ((cats.high.take 8).map (mark "copy_exact" .zero) ++
        (cats.medium.take 5).map (mark "minor_enhancement" .low)).length > 0 ∧
        ((cats.high.take 8).map (mark "copy_exact" .zero) ++
          (cats.medium.take 5).map (mark "minor_enhancement" .low)).length < 10) := by
      rw [hbl]
      omega
    rw [if_neg hcond]
    have hlen : (((cats.high.take 8).map (mark "copy_exact" .zero) ++
        (cats.medium.take 5).map (mark "minor_enhancement" .low))).length ≤ 15 := by
      rw [hbl]
      omega
    rw [List.take_of_length_le (by rw [sortDesc_length]; exact hlen),
      (sortDesc_perm selKey _).countP_eq, hbase0]

/-! ### Properties of the scoring stages -/

/-- Every record produced by `_analyze_slide_batch` is an input record with
`ai_score` and `ai_reason` written. -/
theorem mem_analyzeSlideBatch (jr : JudgeResult) (slides : List SlideRec)
    (r : SlideRec) (h : r ∈ analyzeSlideBatch jr slides) :
    ∃ s ∈ slides, ∃ sc rs,
      r = { s with ai_score := some sc, ai_reason := some rs } := by
  rcases List.mem_map.mp h with ⟨p, hp, hr⟩
  have hs : p.2 ∈ slides := by
    rw [List.mem_enum_iff_get?] at hp
    exact List.get?_mem hp
  exact ⟨p.2, hs, _, _, hr.symm⟩

/-- The `ai_score` and `ai_reason` written by `applyAiScore`. -/
theorem applyAiScore_fields (ai_scores : List AIRec) (p : Nat × SlideRec) :
    (applyAiScore ai_scores p).ai_score =
      some (((ai_scores.find? (fun rec => rec.index = (p.1 : Int))).getD
        ⟨p.1, 1/2, "No specific analysis"⟩).score) ∧
    (applyAiScore ai_scores p).ml_score = p.2.ml_score := ⟨rfl, rfl⟩

/-- In the fallback branches, every score record carries the neutral 0.5. -/
theorem judgeScores_default (jr : JudgeResult)
    (hjr : jr = .noClient ∨ jr = .apiError) (n : Nat) :
    ∀ rec ∈ judgeScores jr n, rec.score = 1/2 := by
  rcases hjr with rfl | rfl <;>
  · intro rec hrec
    rcases List.mem_map.mp hrec with ⟨i, _, hrec2⟩
    rw [← hrec2]

/-- Looking up any record in a list of all-0.5 scores yields 0.5, found or
defaulted. -/
theorem find?_getD_score (L : List AIRec) (q : AIRec → Bool) (d : AIRec)
    (hL : ∀ rec ∈ L, rec.score = 1/2) (hd : d.score = 1/2) :
    ((L.find? q).getD d).score = 1/2 := by
  cases hfind : L.find? q with
  | none => simpa using hd
  | some rec =>
    simp only [Option.getD_some]
    exact hL rec (List.mem_of_find?_eq_some hfind)

/-- With no client or a failed call, every record leaving
`_analyze_slide_batch` carries the neutral judge score 0.5. -/
theorem analyzeSlideBatch_default_ai (jr : JudgeResult)
    (hjr : jr = .noClient ∨ jr = .apiError) (slides : List SlideRec)
    (r : SlideRec) (h : r ∈ analyzeSlideBatch jr slides) :
    r.ai_score = some (1/2) := by
  rcases List.mem_map.mp h with ⟨p, _, hr⟩
  rw [← hr, (applyAiScore_fields _ _).1,
    find?_getD_score _ _ _ (judgeScores_default jr hjr _) rfl]

/-- Every record produced by `_ai_score_slides` comes from one batch. -/
theorem mem_aiScoreSlides (judge : Nat → JudgeResult) (slides : List SlideRec)
    (r : SlideRec) (h : r ∈ aiScoreSlides judge slides) :
    ∃ b batch, batch ∈ chunk5 slides ∧ r ∈ analyzeSlideBatch (judge b) batch := by
  rcases List.mem_flatten.mp h with ⟨l, hl, hr⟩
  rcases List.mem_map.mp hl with ⟨p, hp, hl2⟩
  have hb : p.2 ∈ chunk5 slides := by
    rw [List.mem_enum_iff_get?] at hp
    exact List.get?_mem hp
  exact ⟨p.1, p.2, hb, hl2 ▸ hr⟩

/-- If the judge is unavailable, or its call fails, for every batch, then
every AI-scored record carries score 0.5. -/
theorem aiScoreSlides_default (judge : Nat → JudgeResult)
    (hj : ∀ b, judge b = .noClient ∨ judge b = .apiError)
    (slides : List SlideRec) (r : SlideRec)
    (h : r ∈ aiScoreSlides judge slides) :
    r.ai_score = some (1/2) := by
  rcases mem_aiScoreSlides _ _ _ h with ⟨b, batch, _, hr⟩
  exact analyzeSlideBatch_default_ai _ (hj b) _ _ hr

/-- Every record produced by `_ml_score_slides` is an input record with
`ml_score` written; all other fields, in particular `ai_score`, are
untouched. -/
theorem mem_mlScoreSlides (sims : Nat → ℚ) (l : List SlideRec) (r : SlideRec)
    (h : r ∈ mlScoreSlides sims l) :
    ∃ s ∈ l, ∃ v, r = { s with ml_score := some v } := by
  rcases List.mem_map.mp h with ⟨p, hp, hr⟩
  have hs : p.2 ∈ l := by
    rw [List.mem_enum_iff_get?] at hp
    exact List.get?_mem hp
  exact ⟨p.2, hs, sims p.1, hr.symm⟩

/-- The ML scoring stage of a non-empty list is non-empty. -/
theorem mlScoreSlides_ne_nil (sims : Nat → ℚ) (l : List SlideRec)
    (h : l ≠ []) : mlScoreSlides sims l ≠ [] := by
  cases l with
  | nil => exact absurd rfl h
  | cons s t => simp [mlScoreSlides, List.enum_cons]

/-- The AI scoring stage of a non-empty pool is non-empty: the first batch
is non-empty and batch analysis preserves batch size. -/
theorem aiScoreSlides_ne_nil (judge : Nat → JudgeResult) (slides : List SlideRec)
    (h : slides ≠ []) : aiScoreSlides judge slides ≠ [] := by
  cases slides with
  | nil => exact absurd rfl h
  | cons s t =>
    simp only [aiScoreSlides, chunk5, List.length_cons, chunk5Aux]
    intro hcon
    rw [List.flatten_eq_nil_iff] at hcon
    have hmem : analyzeSlideBatch (judge 0) (s :: t.take 4) ∈
        ((((s :: t.take 4) :: chunk5Aux t.length (t.drop 4)).enum).map
          (fun p => analyzeSlideBatch (judge p.1) p.2)) := by
      simp [List.enum_cons]
    have := hcon _ hmem
    simp [analyzeSlideBatch, List.enum_cons] at this

/-- Any member of an `upsert` result is an old member or an `f`-image. -/
theorem mem_upsert_or (k : String) (f : Entry → Entry) (init : Entry)
    (d : List (String × Entry)) (kv : String × Entry) (h : kv ∈ upsert k f init d) :
    kv ∈ d ∨ ∃ e, kv.2 = f e := by
  induction d with
  | nil =>
    simp only [upsert, List.mem_singleton] at h
    exact Or.inr ⟨init, by rw [h]⟩
  | cons kv₀ rest ih =>
    obtain ⟨k₀, e₀⟩ := kv₀
    by_cases hk : k₀ = k
    · simp only [upsert, if_pos hk, List.mem_cons] at h
      rcases h with h | h
      · exact Or.inr ⟨e₀, by rw [h]⟩
      · exact Or.inl (List.mem_cons_of_mem _ h)
    · simp only [upsert, if_neg hk, List.mem_cons] at h
      rcases h with h | h
      · exact Or.inl (h ▸ List.mem_cons_self _ _)
      · rcases ih h with h | h
        · exact Or.inl (List.mem_cons_of_mem _ h)
        · exact Or.inr h

/-- Invariant transport when the written value satisfies `P` outright
(creation of new entries allowed). -/
theorem foldl_upsert_inv_create (P : Entry → Prop) (g : SlideRec → Entry → Entry)
    (mkInit : SlideRec → Entry) (l : List SlideRec) (d : List (String × Entry))
    (hd : ∀ kv ∈ d, P kv.2)
    (hg : ∀ s ∈ l, ∀ e, P (g s e)) :
    ∀ kv ∈ l.foldl (fun d s => upsert s.id (g s) (mkInit s) d) d, P kv.2 := by
  induction l generalizing d with
  | nil => simpa using hd
  | cons s l ih =>
    simp only [List.foldl_cons]
    refine ih _ ?_ (fun t ht => hg t (List.mem_cons_of_mem _ ht))
    intro kv hkv
    rcases mem_upsert_or _ _ _ _ _ hkv with h | ⟨e, he⟩
    · exact hd _ h
    · rw [he]
      exact hg s (List.mem_cons_self _ _) e

/-- The keys of an `upsert` result: unchanged when the key was present,
the key appended otherwise. -/
theorem keys_upsert (k : String) (f : Entry → Entry) (init : Entry)
    (d : List (String × Entry)) :
    (upsert k f init d).map Prod.fst =
      (if k ∈ d.map Prod.fst then d.map Prod.fst else d.map Prod.fst ++ [k]) := by
  induction d with
  | nil => simp [upsert]
  | cons kv₀ rest ih =>
    obtain ⟨k₀, e₀⟩ := kv₀
    by_cases hk : k₀ = k
    · simp [upsert, hk]
    · by_cases hmem : k ∈ rest.map Prod.fst
      · simp [upsert, hk, hmem, Ne.symm hk, ih]
      · simp [upsert, hk, hmem, Ne.symm hk, ih]

/-- The dict update preserves key distinctness. -/
theorem keys_nodup_upsert (k : String) (f : Entry → Entry) (init : Entry)
    (d : List (String × Entry)) (h : (d.map Prod.fst).Nodup) :
    ((upsert k f init d).map Prod.fst).Nodup := by
  rw [keys_upsert]
  by_cases hmem : k ∈ d.map Prod.fst
  · rwa [if_pos hmem]
  · rw [if_neg hmem]
    refine List.Nodup.append h (List.nodup_singleton k) ?_
    intro a ha hb
    rw [List.mem_singleton] at hb
    exact hmem (hb ▸ ha)

/-- The loops preserve key distinctness. -/
theorem keys_nodup_foldl_upsert (g : SlideRec → Entry → Entry)
    (mkInit : SlideRec → Entry) (l : List SlideRec) (d : List (String × Entry))
    (h : (d.map Prod.fst).Nodup) :
    (((l.foldl (fun d s => upsert s.id (g s) (mkInit s) d) d)).map Prod.fst).Nodup := by
  induction l generalizing d with
  | nil => simpa using h
  | cons s l ih =>
    simp only [List.foldl_cons]
    exact ih _ (keys_nodup_upsert _ _ _ _ h)

/-- Keys of the accumulated dict come from the initial dict or the ids of
the processed records. -/
theorem key_mem_of_mem_foldl (g : SlideRec → Entry → Entry)
    (mkInit : SlideRec → Entry) (l : List SlideRec) (d : List (String × Entry))
    (kv : String × Entry)
    (h : kv ∈ l.foldl (fun d s => upsert s.id (g s) (mkInit s) d) d) :
    kv.1 ∈ d.map Prod.fst ∨ kv.1 ∈ l.map SlideRec.id := by
  induction l generalizing d with
  | nil =>
    exact Or.inl (List.mem_map_of_mem Prod.fst (by simpa using h))
  | cons s l ih =>
    simp only [List.foldl_cons] at h
    rcases ih _ h with h' | h'
    · rw [keys_upsert] at h'
      by_cases hmem : s.id ∈ d.map Prod.fst
      · rw [if_pos hmem] at h'
        exact Or.inl h'
      · rw [if_neg hmem] at h'
        rcases List.mem_append.mp h' with h' | h'
        · exact Or.inl h'
        · rw [List.mem_singleton] at h'
          exact Or.inr (h' ▸ List.mem_map_of_mem SlideRec.id (List.mem_cons_self _ _))
    · refine Or.inr ?_
      simp only [List.map_cons, List.mem_cons]
      exact Or.inr h' 

/-- With distinct keys, an `upsert` member with the written key is the
written entry. -/
theorem mem_upsert_nodup (k : String) (f : Entry → Entry) (init : Entry)
    (d : List (String × Entry)) (hnd : (d.map Prod.fst).Nodup)
    (kv : String × Entry) (h : kv ∈ upsert k f init d) :
    (kv ∈ d ∧ kv.1 ≠ k) ∨ ∃ e, kv.2 = f e := by
  induction d with
  | nil =>
    simp only [upsert, List.mem_singleton] at h
    exact Or.inr ⟨init, by rw [h]⟩
  | cons kv₀ rest ih =>
    obtain ⟨k₀, e₀⟩ := kv₀
    simp only [List.map_cons, List.nodup_cons] at hnd
    by_cases hk : k₀ = k
    · simp only [upsert, if_pos hk, List.mem_cons] at h
      rcases h with h | h
      · exact Or.inr ⟨e₀, by rw [h]⟩
      · refine Or.inl ⟨List.mem_cons_of_mem _ h, ?_⟩
        intro hcon
        exact hnd.1 (hk ▸ hcon ▸ List.mem_map_of_mem Prod.fst h)
    · simp only [upsert, if_neg hk, List.mem_cons] at h
      rcases h with h | h
      · exact Or.inl ⟨h ▸ List.mem_cons_self _ _, by rw [h]; exact hk⟩
      · rcases ih hnd.2 h with ⟨h1, h2⟩ | h'
        · exact Or.inl ⟨List.mem_cons_of_mem _ h1, h2⟩
        · exact Or.inr h'

/-- Every entry of the accumulated dict is either an untouched initial
entry whose key the loop never hits, or the result of the loop's write for
some processed record. -/
theorem foldl_upsert_write_cases (g : SlideRec → Entry → Entry)
    (mkInit : SlideRec → Entry) (l : List SlideRec) (d : List (String × Entry))
    (hnd : (d.map Prod.fst).Nodup) (kv : String × Entry)
    (h : kv ∈ l.foldl (fun d s => upsert s.id (g s) (mkInit s) d) d) :
    (kv ∈ d ∧ kv.1 ∉ l.map SlideRec.id) ∨ ∃ s ∈ l, ∃ e, kv.2 = g s e := by
  induction l generalizing d with
  | nil =>
    simp only [List.foldl_nil] at h
    exact Or.inl ⟨h, by simp⟩
  | cons s l ih =>
    simp only [List.foldl_cons] at h
    rcases ih _ (keys_nodup_upsert _ _ _ _ hnd) h with ⟨h1, h2⟩ | ⟨s', hs', e, he⟩
    · rcases mem_upsert_nodup _ _ _ _ hnd _ h1 with ⟨h3, h4⟩ | ⟨e, he⟩
      · refine Or.inl ⟨h3, ?_⟩
        simp only [List.map_cons, List.mem_cons]
        rintro (hcon | hcon)
        · exact h4 hcon
        · exact h2 hcon
      · exact Or.inr ⟨s, List.mem_cons_self _ _, e, he⟩
    · exact Or.inr ⟨s', List.mem_cons_of_mem _ hs', e, he⟩

/-- Entries of the score dict built from one twice-passed record list (the
aliasing situation of `match_slides`): the judge score is 0.5 whenever
every record carries judge score 0.5, and the similarity score and stored
record come from the last write of the ML loop. -/
theorem buildScores_entries (l : List SlideRec)
    (hai : ∀ r ∈ l, r.ai_score = some (1/2)) :
    ∀ kv ∈ buildScores l l, kv.2.ai_score = 1/2 ∧
      ∃ s ∈ l, kv.2.ml_score = s.ml_score.getD 0 ∧ kv.2.slide = s := by
  intro kv hkv
  unfold buildScores at hkv
  constructor
  · refine foldl_upsert_inv (fun e => e.ai_score = 1/2) _ _ l _ ?_ ?_ ?_ kv hkv
    · refine foldl_upsert_inv_create (fun e => e.ai_score = 1/2) _ _ l [] (by simp) ?_
      intro s hs e
      simp [hai s hs]
    · intro s hs
      exact id_mem_keys_foldl_upsert _ _ l [] s hs
    · intro s _ e he
      exact he
  · rcases foldl_upsert_write_cases _ _ l _ (by
      exact keys_nodup_foldl_upsert _ _ l [] (by simp)) kv hkv with ⟨h1, h2⟩ | ⟨s, hs, e, he⟩
    · rcases key_mem_of_mem_foldl _ _ l [] kv h1 with h3 | h3
      · simp at h3
      · exact absurd h3 h2
    · exact ⟨s, hs, by rw [he], by rw [he]⟩

/-- When every judge score defaulted to 0.5, every bucket record's
combined score is the fixed affine function of its own similarity score. -/
theorem categorizeSlides_combined_of_default (l : List SlideRec)
    (hai : ∀ r ∈ l, r.ai_score = some (1/2)) (x : SlideRec)
    (hx : x ∈ (categorizeSlides l l).high ∨ x ∈ (categorizeSlides l l).medium ∨
      x ∈ (categorizeSlides l l).low) :
    ckey x = combinedScore (1/2) (mlv x) := by
  rcases mem_categorizeSlides_bucket l l x hx with ⟨kv, hkv, hxe⟩
  rcases buildScores_entries l hai kv hkv with ⟨hA, s, _, hM, hS⟩
  rw [hxe]
  show combinedScore kv.2.ai_score kv.2.ml_score = combinedScore (1/2) (mlv (annotateEntry kv.2))
  have hml : mlv (annotateEntry kv.2) = kv.2.ml_score := by
    show kv.2.slide.ml_score.getD 0 = kv.2.ml_score
    rw [hS, hM]
  rw [hml, hA]

/-- The combined score and similarity fields survive the `action`/`cost`
marking of the selection step. -/
theorem mark_preserves_scores (a : String) (c : Cost) (r : SlideRec) :
    ckey (mark a c r) = ckey r ∧ mlv (mark a c r) = mlv r := ⟨rfl, rfl⟩

/-- The cost-optimized selection output is sorted descending by the
reversed `(combined_score, action priority)` tuple. -/
theorem selectSlidesOptimized_sorted (cats : Categorized) :
    (selectSlidesOptimized cats).Pairwise (fun a b => selKey b ≤ selKey a) := by
  unfold selectSlidesOptimized
  exact (sortDesc_pairwise selKey _).sublist (List.take_sublist _ _)

/-- Lexicographic comparison of selection keys bounds the combined
scores. -/
theorem selKey_le_ckey_le (a b : SlideRec) (h : selKey b ≤ selKey a) :
    ckey b ≤ ckey a := by
  rcases (Prod.Lex.le_iff _ _).mp h with h1 | ⟨h1, _⟩
  · exact le_of_lt h1
  · exact le_of_eq h1

/-! ### Claim C1 -/

/-- C1 counterexample: at judge score 2 and similarity 0 the engine's
categorization computes combined score 1.4, while the claimed pre-clamped
formula yields 0.7 — the code performs no clamping, refuting the claim as
stated. -/
theorem C1_counterexample :
    ((categorizeSlides [outOfRangeRec] [outOfRangeRec]).high.map ckey =
      [7/5]) ∧
    combinedScore 2 0 = 7/5 ∧ combinedScoreSpec 2 0 = 7/10 ∧
    ¬ ((7:ℚ)/5 = 7/10) := by
  refine ⟨by with_unfolding_all decide, by with_unfolding_all decide,
    by with_unfolding_all decide, by with_unfolding_all decide⟩

/-- C1 (amended): the engine computes combined = 0.7 × judge + 0.3 ×
similarity with NO clamping of either input; nevertheless, whenever the
judge score and the similarity score are both in [0,1], the combined score
is in [0,1].  (`categorizeSlides` writes exactly `combinedScore` of the
dict entry into every record, via `annotateEntry`.) -/
theorem C1_fusion_formula_and_bounds :
    (∀ e : Entry, (annotateEntry e).combined_score =
      some (combinedScore e.ai_score e.ml_score)) ∧
    (∀ ai ml : ℚ, combinedScore ai ml = (7/10) * ai + (3/10) * ml) ∧
    (∀ ai ml : ℚ, 0 ≤ ai → ai ≤ 1 → 0 ≤ ml → ml ≤ 1 →
      0 ≤ combinedScore ai ml ∧ combinedScore ai ml ≤ 1) := by
  refine ⟨fun e => rfl, fun ai ml => by unfold combinedScore; ring, ?_⟩
  intro ai ml h0a h1a h0m h1m
  unfold combinedScore
  constructor <;> nlinarith

/-- C1 witness: the bounds theorem applied at judge score 1/2 and
similarity 1. -/
theorem C1_witness :
    0 ≤ combinedScore (1/2) 1 ∧ combinedScore (1/2) 1 ≤ 1 :=
  C1_fusion_formula_and_bounds.2.2 (1/2) 1 (by norm_num) (by norm_num)
    (by norm_num) (by norm_num)

/-! ### Claim C3 -/

/-- C3: on a combined-score tie the selection orders `minor_enhancement`
before `copy_exact` — the `reverse=True` of line 318 also reverses the
cost key, contradicting both the claim and the source's own comment
`# Lower cost first` (line 320).  The 15-record truncation holds. -/
theorem C3_tie_break_eval :
    ((selectSlidesOptimized tiedCats).map (fun r => r.action) =
      [some "minor_enhancement", some "copy_exact"]) ∧
    (selectSlidesOptimized tiedCats).length ≤ 15 := by
  refine ⟨by with_unfolding_all decide, by with_unfolding_all decide⟩

/-! ### Claim C4 -/

/-- C4: classification thresholds — combined ≥ 0.8 is high, 0.6 ≤ combined
< 0.8 is medium, combined < 0.6 is low — and every record selected by the
cost-optimized policy is a bucket record marked with the action and cost of
its tier: high ↦ (`copy_exact`, 0), medium ↦ (`minor_enhancement`, 'low'),
low ↦ (`full_generation`, 'high'). -/
theorem C4_thresholds_and_tier_actions :
    (∀ s : ℚ, (getConfidenceLevel s = "high" ↔ 4/5 ≤ s) ∧
      (getConfidenceLevel s = "medium" ↔ 3/5 ≤ s ∧ s < 4/5) ∧
      (getConfidenceLevel s = "low" ↔ s < 3/5)) ∧
    (∀ (cats : Categorized) (x : SlideRec), x ∈ selectSlidesOptimized cats →
      (∃ r ∈ cats.high, x = mark "copy_exact" .zero r) ∨
      (∃ r ∈ cats.medium, x = mark "minor_enhancement" .low r) ∨
      (∃ r ∈ cats.low, x = mark "full_generation" .high r)) := by
  refine ⟨?_, mem_selectSlidesOptimized⟩
  intro s
  unfold getConfidenceLevel
  by_cases h1 : s ≥ 4/5
  · rw [if_pos h1]
    refine ⟨⟨fun _ => h1, fun _ => rfl⟩, ⟨?_, ?_⟩, ⟨?_, ?_⟩⟩
    · intro hcon; exact absurd hcon (by decide)
    · intro hcon; exact absurd h1 (not_le.mpr hcon.2)
    · intro hcon; exact absurd hcon (by decide)
    · intro hcon; exact absurd h1 (not_le.mpr (hcon.trans_le (by norm_num)))
  · by_cases h2 : s ≥ 3/5
    · rw [if_neg h1, if_pos h2]
      refine ⟨⟨?_, ?_⟩, ⟨fun _ => ⟨h2, not_le.mp h1⟩, fun _ => rfl⟩, ⟨?_, ?_⟩⟩
      · intro hcon; exact absurd hcon (by decide)
      · intro hcon; exact absurd hcon h1
      · intro hcon; exact absurd hcon (by decide)
      · intro hcon; exact absurd h2 (not_le.mpr hcon)
    · rw [if_neg h1, if_neg h2]
      refine ⟨⟨?_, ?_⟩, ⟨?_, ?_⟩, ⟨fun _ => not_le.mp h2, fun _ => rfl⟩⟩
      · intro hcon; exact absurd hcon (by decide)
      · intro hcon; exact absurd hcon h1
      · intro hcon; exact absurd hcon (by decide)
      · intro hcon; exact absurd hcon.1 h2

/-- C4 witness: threshold and selection facts at concrete inputs. -/
theorem C4_witness :
    getConfidenceLevel 1 = "high" ∧
    ((∃ r ∈ c4Cats.high, mark "copy_exact" Cost.zero c4HighRec =
        mark "copy_exact" Cost.zero r) ∨
      (∃ r ∈ c4Cats.medium, mark "copy_exact" Cost.zero c4HighRec =
        mark "minor_enhancement" Cost.low r) ∨
      (∃ r ∈ c4Cats.low, mark "copy_exact" Cost.zero c4HighRec =
        mark "full_generation" Cost.high r)) :=
  ⟨(C4_thresholds_and_tier_actions.1 1).1.mpr (by norm_num),
    C4_thresholds_and_tier_actions.2 c4Cats _ (by with_unfolding_all decide)⟩

/-! ### Claim C5 -/

/-- Looking up a record in a list with constant rationale yields that
rationale or the default's. -/
theorem find?_getD_reason (L : List AIRec) (q : AIRec → Bool) (d : AIRec)
    (m : String) (hL : ∀ rec ∈ L, rec.reason = m) :
    ((L.find? q).getD d).reason = m ∨ ((L.find? q).getD d).reason = d.reason := by
  cases hfind : L.find? q with
  | none => exact Or.inr rfl
  | some rec =>
    simp only [Option.getD_some]
    exact Or.inl (hL rec (List.mem_of_find?_eq_some hfind))

/-- Fallback rationales of the score list. -/
theorem judgeScores_reason (n : Nat) :
    (∀ rec ∈ judgeScores .noClient n, rec.reason = "AI analysis unavailable") ∧
    (∀ rec ∈ judgeScores .apiError n, rec.reason = "AI analysis failed") := by
  constructor <;>
  · intro rec hrec
    rcases List.mem_map.mp hrec with ⟨i, _, hrec2⟩
    rw [← hrec2]

/-- C5: whenever no judge client is configured, the judge call raises, or
the parsed response holds no record for the candidate's batch position,
that candidate enters fusion with the neutral judge score 0.5 and one of
the three default rationales. -/
theorem C5_judge_fallback_default :
    ∀ (jr : JudgeResult) (slides : List SlideRec) (i : Nat) (r : SlideRec),
      (jr = .noClient ∨ jr = .apiError ∨
        (∀ recs, jr = .ok recs → ∀ rec ∈ recs, rec.index ≠ (i : Int))) →
      (analyzeSlideBatch jr slides)[i]? = some r →
      r.ai_score = some (1/2) ∧
        (r.ai_reason = some "AI analysis unavailable" ∨
         r.ai_reason = some "AI analysis failed" ∨
         r.ai_reason = some "No specific analysis") := by
  intro jr slides i r hcond hget
  unfold analyzeSlideBatch at hget
  rw [List.getElem?_map, List.getElem?_enum] at hget
  cases hsl : slides[i]? with
  | none => rw [hsl] at hget; simp at hget
  | some s =>
    rw [hsl] at hget
    simp only [Option.map_some'] at hget
    have hr : r = applyAiScore (judgeScores jr slides.length) (i, s) :=
      (Option.some.inj hget).symm
    have hai : r.ai_score = some (((judgeScores jr slides.length).find?
        (fun rec => rec.index = (i : Int))).getD
          ⟨i, 1/2, "No specific analysis"⟩).score := by
      rw [hr]; exact (applyAiScore_fields _ _).1
    have hrs : r.ai_reason = some (((judgeScores jr slides.length).find?
        (fun rec => rec.index = (i : Int))).getD
          ⟨i, 1/2, "No specific analysis"⟩).reason := by
      rw [hr]; rfl
    rcases hcond with rfl | rfl | hok
    · refine ⟨?_, ?_⟩
      · rw [hai, find?_getD_score _ _ _
          (judgeScores_default _ (Or.inl rfl) _) rfl]
      · rcases find?_getD_reason (judgeScores .noClient slides.length) _
          ⟨i, 1/2, "No specific analysis"⟩ _
          (judgeScores_reason slides.length).1 with h | h
        · exact Or.inl (by rw [hrs, h])
        · exact Or.inr (Or.inr (by rw [hrs, h]))
    · refine ⟨?_, ?_⟩
      · rw [hai, find?_getD_score _ _ _
          (judgeScores_default _ (Or.inr rfl) _) rfl]
      · rcases find?_getD_reason (judgeScores .apiError slides.length) _
          ⟨i, 1/2, "No specific analysis"⟩ _
          (judgeScores_reason slides.length).2 with h | h
        · exact Or.inr (Or.inl (by rw [hrs, h]))
        · exact Or.inr (Or.inr (by rw [hrs, h]))
    · cases jr with
      | noClient =>
        refine ⟨?_, ?_⟩
        · rw [hai, find?_getD_score _ _ _
            (judgeScores_default _ (Or.inl rfl) _) rfl]
        · rcases find?_getD_reason (judgeScores .noClient slides.length) _
            ⟨i, 1/2, "No specific analysis"⟩ _
            (judgeScores_reason slides.length).1 with h | h
          · exact Or.inl (by rw [hrs, h])
          · exact Or.inr (Or.inr (by rw [hrs, h]))
      | apiError =>
        refine ⟨?_, ?_⟩
        · rw [hai, find?_getD_score _ _ _
            (judgeScores_default _ (Or.inr rfl) _) rfl]
        · rcases find?_getD_reason (judgeScores .apiError slides.length) _
            ⟨i, 1/2, "No specific analysis"⟩ _
            (judgeScores_reason slides.length).2 with h | h
          · exact Or.inr (Or.inl (by rw [hrs, h]))
          · exact Or.inr (Or.inr (by rw [hrs, h]))
      | ok recs =>
        have hnone : (judgeScores (.ok recs) slides.length).find?
            (fun rec => rec.index = (i : Int)) = none := by
          rw [List.find?_eq_none]
          intro rec hrec
          simp only [decide_eq_true_eq]
          exact hok recs rfl rec hrec
        rw [hai, hrs, hnone]
        exact ⟨rfl, Or.inr (Or.inr rfl)⟩

/-! ### Claim C6 -/

/-- C6: for every judge behaviour and similarity assignment, the
cost-optimized pipeline returns at most 15 records, returns the empty list
exactly on the empty pool, and returns at least one record on every
non-empty pool. -/
theorem C6_match_slides_bounds :
    ∀ (judge : Nat → JudgeResult) (sims : Nat → ℚ) (slides : List SlideRec),
      (matchSlides judge sims slides).length ≤ 15 ∧
      (slides = [] → matchSlides judge sims slides = []) ∧
      (slides ≠ [] → matchSlides judge sims slides ≠ []) := by
  intro judge sims slides
  by_cases h : slides = []
  · subst h
    exact ⟨by simp [matchSlides], fun _ => by simp [matchSlides],
      fun hcon => absurd rfl hcon⟩
  · have hm : matchSlides judge sims slides =
        selectSlidesOptimized (categorizeSlides
          (mlScoreSlides sims (aiScoreSlides judge slides))
          (mlScoreSlides sims (aiScoreSlides judge slides))) := by
      simp [matchSlides, h]
    refine ⟨?_, fun hcon => absurd hcon h, fun _ => ?_⟩
    · rw [hm]
      exact selectSlidesOptimized_length_le _
    · rw [hm]
      refine selectSlidesOptimized_ne_nil _ (categorizeSlides_bucket_ne_nil _ _ ?_)
      exact buildScores_ne_nil _ _
        (mlScoreSlides_ne_nil _ _ (aiScoreSlides_ne_nil judge _ h))

/-- C6 witness: the bounds at a judge-less one-candidate run. -/
theorem C6_witness :
    (matchSlides (fun _ => .noClient) (fun _ => 0) [baseRec]).length ≤ 15 ∧
    matchSlides (fun _ => .noClient) (fun _ => 0) [baseRec] ≠ [] :=
  ⟨(C6_match_slides_bounds (fun _ => .noClient) (fun _ => 0) [baseRec]).1,
    (C6_match_slides_bounds (fun _ => .noClient) (fun _ => 0) [baseRec]).2.2
      (by decide)⟩

/-- C5 witness: the fallback theorem applied to a client-less run on one
candidate. -/
theorem C5_witness :
    c5OutRec.ai_score = some (1/2) ∧
      (c5OutRec.ai_reason = some "AI analysis unavailable" ∨
       c5OutRec.ai_reason = some "AI analysis failed" ∨
       c5OutRec.ai_reason = some "No specific analysis") :=
  C5_judge_fallback_default .noClient [baseRec] 0 c5OutRec (Or.inl rfl)
    (by with_unfolding_all decide)

/-! ### Claim C9 -/

/-- C9 counterexample: the scoring stages do not leave candidate records
unchanged — the batch analysis and the ML scoring return records that
differ from the inputs (and in the source they return the very list whose
dicts they mutated in place, lines 173–178 and 213–217). -/
theorem C9_counterexample :
    analyzeSlideBatch .noClient [baseRec] ≠ [baseRec] ∧
    mlScoreSlides (fun _ => 0) [baseRec] ≠ [baseRec] := by
  refine ⟨by with_unfolding_all decide, by with_unfolding_all decide⟩

/-- C9 (amended): a `match_slides` invocation annotates the candidate
records rather than leaving them unchanged — every returned record (which
in the source aliases an input dict) carries freshly written
`combined_score`, `confidence_level`, `action` and `cost` keys. -/
theorem C9_annotations_written :
    ∀ (judge : Nat → JudgeResult) (sims : Nat → ℚ) (slides : List SlideRec),
      ∀ x ∈ matchSlides judge sims slides,
        x.combined_score ≠ none ∧ x.confidence_level ≠ none ∧
        x.action ≠ none ∧ x.cost ≠ none := by
  intro judge sims slides x hx
  by_cases h : slides = []
  · subst h
    simp [matchSlides] at hx
  · have hm : matchSlides judge sims slides =
        selectSlidesOptimized (categorizeSlides
          (mlScoreSlides sims (aiScoreSlides judge slides))
          (mlScoreSlides sims (aiScoreSlides judge slides))) := by
      simp [matchSlides, h]
    rw [hm] at hx
    have hannot : ∀ (r : SlideRec),
        (r ∈ (categorizeSlides (mlScoreSlides sims (aiScoreSlides judge slides))
            (mlScoreSlides sims (aiScoreSlides judge slides))).high ∨
         r ∈ (categorizeSlides (mlScoreSlides sims (aiScoreSlides judge slides))
            (mlScoreSlides sims (aiScoreSlides judge slides))).medium ∨
         r ∈ (categorizeSlides (mlScoreSlides sims (aiScoreSlides judge slides))
            (mlScoreSlides sims (aiScoreSlides judge slides))).low) →
        r.combined_score ≠ none ∧ r.confidence_level ≠ none := by
      intro r hr
      rcases mem_categorizeSlides_bucket _ _ r hr with ⟨kv, _, rfl⟩
      exact ⟨by simp [annotateEntry], by simp [annotateEntry]⟩
    rcases mem_selectSlidesOptimized _ _ hx with ⟨r, hr, rfl⟩ | ⟨r, hr, rfl⟩ |
      ⟨r, hr, rfl⟩
    · have := hannot r (Or.inl hr)
      exact ⟨this.1, this.2, by simp [mark], by simp [mark]⟩
    · have := hannot r (Or.inr (Or.inl hr))
      exact ⟨this.1, this.2, by simp [mark], by simp [mark]⟩
    · have := hannot r (Or.inr (Or.inr hr))
      exact ⟨this.1, this.2, by simp [mark], by simp [mark]⟩

/-- C9 witness: the annotation theorem applied to the concrete
one-candidate run. -/
theorem C9_witness :
    c9OutRec.combined_score ≠ none ∧ c9OutRec.confidence_level ≠ none ∧
    c9OutRec.action ≠ none ∧ c9OutRec.cost ≠ none :=
  C9_annotations_written (fun _ => .noClient) (fun _ => 0) [baseRec] c9OutRec
    (by with_unfolding_all decide)

/-! ### Claim C7 -/

/-- C7: when the judge is unconfigured or its call fails on every batch
(so every candidate's judge score defaults to 0.5), the pipeline output on
a non-empty pool is non-empty and is ordered by descending similarity
score. -/
theorem C7_default_judge_similarity_ranking :
    ∀ (judge : Nat → JudgeResult) (sims : Nat → ℚ) (slides : List SlideRec),
      (∀ b, judge b = .noClient ∨ judge b = .apiError) → slides ≠ [] →
      matchSlides judge sims slides ≠ [] ∧
      (matchSlides judge sims slides).Pairwise (fun a b => mlv b ≤ mlv a) := by
  intro judge sims slides hj h
  have hm : matchSlides judge sims slides =
      selectSlidesOptimized (categorizeSlides
        (mlScoreSlides sims (aiScoreSlides judge slides))
        (mlScoreSlides sims (aiScoreSlides judge slides))) := by
    simp [matchSlides, h]
  have hai : ∀ r ∈ mlScoreSlides sims (aiScoreSlides judge slides),
      r.ai_score = some (1/2) := by
    intro r hr
    rcases mem_mlScoreSlides _ _ _ hr with ⟨s, hs, v, rfl⟩
    simpa using aiScoreSlides_default judge hj slides s hs
  constructor
  · rw [hm]
    refine selectSlidesOptimized_ne_nil _ (categorizeSlides_bucket_ne_nil _ _ ?_)
    exact buildScores_ne_nil _ _
      (mlScoreSlides_ne_nil _ _ (aiScoreSlides_ne_nil judge _ h))
  · rw [hm]
    have hR : ∀ x ∈ selectSlidesOptimized (categorizeSlides
        (mlScoreSlides sims (aiScoreSlides judge slides))
        (mlScoreSlides sims (aiScoreSlides judge slides))),
        ckey x = combinedScore (1/2) (mlv x) := by
      intro x hx
      rcases mem_selectSlidesOptimized _ _ hx with ⟨r, hr, rfl⟩ | ⟨r, hr, rfl⟩ |
        ⟨r, hr, rfl⟩
      · rw [(mark_preserves_scores _ _ _).1, (mark_preserves_scores _ _ _).2]
        exact categorizeSlides_combined_of_default _ hai r (Or.inl hr)
      · rw [(mark_preserves_scores _ _ _).1, (mark_preserves_scores _ _ _).2]
        exact categorizeSlides_combined_of_default _ hai r (Or.inr (Or.inl hr))
      · rw [(mark_preserves_scores _ _ _).1, (mark_preserves_scores _ _ _).2]
        exact categorizeSlides_combined_of_default _ hai r (Or.inr (Or.inr hr))
    refine (selectSlidesOptimized_sorted _).imp_of_mem ?_
    intro a b ha hb hab
    have hck := selKey_le_ckey_le a b hab
    rw [hR a ha, hR b hb] at hck
    unfold combinedScore at hck
    linarith

/-- C7 witness: a judge-less two-candidate run is non-empty and ordered by
descending similarity. -/
theorem C7_witness :
    matchSlides (fun _ => .noClient) (fun i => (i : ℚ)) [baseRec, baseRec2] ≠ [] ∧
    (matchSlides (fun _ => .noClient) (fun i => (i : ℚ))
      [baseRec, baseRec2]).Pairwise (fun a b => mlv b ≤ mlv a) :=
  C7_default_judge_similarity_ranking (fun _ => .noClient) (fun i => (i : ℚ))
    [baseRec, baseRec2] (fun _ => Or.inl rfl) (by decide)

/-! ### Claim C8 -/

/-- Truncation of the 40% fraction. -/
theorem floor_four_tenths (t : Nat) : (⌊(t:ℚ) * (4/10)⌋).toNat = 4 * t / 10 := by
  have h : (t:ℚ) * (4/10) = ((4*t : ℕ) : ℚ) / ((10:ℕ) : ℚ) := by push_cast; ring
  rw [h, Rat.floor_natCast_div_natCast]
  norm_cast

/-- Truncation of the 20% fraction. -/
theorem floor_two_tenths (t : Nat) : (⌊(t:ℚ) * (2/10)⌋).toNat = 2 * t / 10 := by
  have h : (t:ℚ) * (2/10) = ((2*t : ℕ) : ℚ) / ((10:ℕ) : ℚ) := by push_cast; ring
  rw [h, Rat.floor_natCast_div_natCast]
  norm_cast

/-- Truncation of the 15% fraction. -/
theorem floor_fifteen_hundredths (t : Nat) :
    (⌊(t:ℚ) * (15/100)⌋).toNat = 15 * t / 100 := by
  have h : (t:ℚ) * (15/100) = ((15*t : ℕ) : ℚ) / ((100:ℕ) : ℚ) := by
    push_cast; ring
  rw [h, Rat.floor_natCast_div_natCast]
  norm_cast

/-- Truncation of the 10% fraction. -/
theorem floor_one_tenth (t : Nat) : (⌊(t:ℚ) * (1/10)⌋).toNat = t / 10 := by
  have h : (t:ℚ) * (1/10) = ((t : ℕ) : ℚ) / ((10:ℕ) : ℚ) := by push_cast; ring
  rw [h, Rat.floor_natCast_div_natCast]
  norm_cast

/-- C8: the target deck length follows the ordered keyword chain of the
use-case string (pitch/demo 8, then training/education 15, then
report/analysis 12, else 10); per-type caps are title 2, content 40%,
chart 20%, image 15%, quote 10%, conclusion 2, any other type 10%, as
truncated integer fractions of the target; in particular a use case
containing "training" (and no earlier keyword) targets 15 slides with
content cap 6. -/
theorem C8_targets_and_type_caps :
    (∀ uc : String,
      ((containsSub uc "pitch" || containsSub uc "demo") = true →
        targetSlidesFor uc = 8) ∧
      ((containsSub uc "pitch" || containsSub uc "demo") = false →
        (containsSub uc "training" || containsSub uc "education") = true →
        targetSlidesFor uc = 15) ∧
      ((containsSub uc "pitch" || containsSub uc "demo") = false →
        (containsSub uc "training" || containsSub uc "education") = false →
        (containsSub uc "report" || containsSub uc "analysis") = true →
        targetSlidesFor uc = 12) ∧
      ((containsSub uc "pitch" || containsSub uc "demo") = false →
        (containsSub uc "training" || containsSub uc "education") = false →
        (containsSub uc "report" || containsSub uc "analysis") = false →
        targetSlidesFor uc = 10)) ∧
    (∀ t : Nat, getMaxSlidesPerType "title" t = 2 ∧
      getMaxSlidesPerType "content" t = 4 * t / 10 ∧
      getMaxSlidesPerType "chart" t = 2 * t / 10 ∧
      getMaxSlidesPerType "image" t = 15 * t / 100 ∧
      getMaxSlidesPerType "quote" t = t / 10 ∧
      getMaxSlidesPerType "conclusion" t = 2) ∧
    (∀ (ty : String) (t : Nat),
      ty ∉ ["title", "content", "chart", "image", "quote", "conclusion"] →
      getMaxSlidesPerType ty t = t / 10) ∧
    (targetSlidesFor "training" = 15 ∧ getMaxSlidesPerType "content" 15 = 6) := by
  refine ⟨?_, ?_, ?_, by with_unfolding_all decide, by with_unfolding_all decide⟩
  · intro uc
    refine ⟨fun h1 => ?_, fun h1 h2 => ?_, fun h1 h2 h3 => ?_,
      fun h1 h2 h3 => ?_⟩
    · simp [targetSlidesFor, h1]
    · rw [Bool.or_eq_false_iff] at h1
      simp [targetSlidesFor, h1.1, h1.2, h2]
    · rw [Bool.or_eq_false_iff] at h1 h2
      simp [targetSlidesFor, h1.1, h1.2, h2.1, h2.2, h3]
    · rw [Bool.or_eq_false_iff] at h1 h2 h3
      simp [targetSlidesFor, h1.1, h1.2, h2.1, h2.2, h3.1, h3.2]
  · intro t
    refine ⟨rfl, ?_, ?_, ?_, ?_, ?_⟩
    · show (⌊(t:ℚ) * (4/10)⌋).toNat = 4 * t / 10
      exact floor_four_tenths t
    · show (⌊(t:ℚ) * (2/10)⌋).toNat = 2 * t / 10
      exact floor_two_tenths t
    · show (⌊(t:ℚ) * (15/100)⌋).toNat = 15 * t / 100
      exact floor_fifteen_hundredths t
    · show (⌊(t:ℚ) * (1/10)⌋).toNat = t / 10
      exact floor_one_tenth t
    · rfl
  · intro ty t hty
    simp only [List.mem_cons, List.not_mem_nil, or_false, not_or] at hty
    obtain ⟨n1, n2, n3, n4, n5, n6⟩ := hty
    unfold getMaxSlidesPerType
    rw [if_neg n1, if_neg n2, if_neg n3, if_neg n4, if_neg n5, if_neg n6]
    exact floor_one_tenth t

/-- C8 witness: the keyword chain and the other-type cap at concrete
inputs. -/
theorem C8_witness :
    targetSlidesFor "pitch deck" = 8 ∧ getMaxSlidesPerType "diagram" 10 = 1 :=
  ⟨(C8_targets_and_type_caps.1 "pitch deck").1 (by with_unfolding_all decide),
    by
      have h := C8_targets_and_type_caps.2.2.1 "diagram" 10
        (by with_unfolding_all decide)
      rw [h]⟩

/-! ### Claim C10 -/

/-- A duplicate-free list contained in another list is no longer than it. -/
theorem nodup_subset_length (l1 l2 : List Entry) (h : l1.Nodup)
    (hs : ∀ x ∈ l1, x ∈ l2) : l1.length ≤ l2.length := by
  calc l1.length = l1.toFinset.card := (List.toFinset_card_of_nodup h).symm
    _ ≤ l2.toFinset.card := Finset.card_le_card (by
        intro x hx
        rw [List.mem_toFinset] at hx ⊢
        exact hs x hx)
    _ ≤ l2.length := l2.toFinset_card_le

/-- While the pool still holds a record not yet selected, one fill pass
appends such a record. -/
theorem fillStep_progress (sortedSlides selected : List Entry)
    (hnd : sortedSlides.Nodup)
    (hlen : selected.length < sortedSlides.length) :
    ∃ x, x ∈ sortedSlides ∧ x ∉ selected ∧
      fillStep sortedSlides selected = selected ++ [x] := by
  have hex : ∃ x ∈ sortedSlides, x ∉ selected := by
    by_contra hcon
    push_neg at hcon
    exact absurd (nodup_subset_length sortedSlides selected hnd hcon) (by omega)
  cases hfind : sortedSlides.find? (fun e => ¬ e ∈ selected) with
  | none =>
    rw [List.find?_eq_none] at hfind
    rcases hex with ⟨x, hx1, hx2⟩
    exact absurd (by simpa using hx2) (hfind x hx1)
  | some y =>
    have hy1 := List.mem_of_find?_eq_some hfind
    have hy2 := List.find?_some hfind
    refine ⟨y, hy1, by simpa using hy2, ?_⟩
    unfold fillStep
    rw [hfind]

/-- With enough fuel, the fill loop reaches a state where its guard is
false — i.e. on duplicate-free pools the while loop of lines 359–364
terminates within `|pool|` iterations. -/
theorem fillLoop_halts_aux :
    ∀ (fuel : Nat) (sortedSlides selected : List Entry) (target : Nat),
      sortedSlides.Nodup → selected.Nodup →
      (∀ x ∈ selected, x ∈ sortedSlides) →
      sortedSlides.length ≤ fuel + selected.length →
      fillGuard target sortedSlides
        (fillLoop fuel target sortedSlides selected) = false := by
  intro fuel
  induction fuel with
  | zero =>
    intro sortedSlides selected target _ _ _ hlen
    simp only [fillLoop, fillGuard]
    have hn : ¬ selected.length < sortedSlides.length := by omega
    simp [hn]
  | succ fuel ih =>
    intro sortedSlides selected target hnd hselnd hsub hlen
    simp only [fillLoop]
    by_cases hg : fillGuard target sortedSlides selected = true
    · rw [if_pos hg]
      have hlt : selected.length < sortedSlides.length := by
        unfold fillGuard at hg
        simp only [Bool.and_eq_true, decide_eq_true_eq] at hg
        exact hg.2
      rcases fillStep_progress sortedSlides selected hnd hlt with
        ⟨x, hx1, hx2, hstep⟩
      rw [hstep]
      refine ih sortedSlides (selected ++ [x]) target hnd ?_ ?_ ?_
      · simp [List.nodup_append, hselnd, hx2]
      · intro y hy
        rcases List.mem_append.mp hy with hy | hy
        · exact hsub y hy
        · rw [List.mem_singleton] at hy
          exact hy ▸ hx1
      · rw [List.length_append, List.length_singleton]
        omega
    · rw [if_neg hg]
      exact Bool.eq_false_iff.mpr hg

/-- The type-mix phase selects a sublist of the pool. -/
theorem mixPhase_sublist (target : Nat) (sortedSlides : List Entry) :
    (mixPhase target sortedSlides).Sublist sortedSlides := by
  suffices h : ∀ (l : List Entry) (st : List Entry × List (String × Nat)),
      ∃ sub : List Entry, sub.Sublist l ∧
        (l.foldl (mixStep target) st).1 = st.1 ++ sub by
    rcases h sortedSlides ([], []) with ⟨sub, hsub, heq⟩
    unfold mixPhase
    rw [heq]
    simpa using hsub
  intro l
  induction l with
  | nil => exact fun st => ⟨[], List.Sublist.refl _, by simp⟩
  | cons e l ih =>
    intro st
    simp only [List.foldl_cons]
    by_cases hc : ((st.2.lookup e.slide.slideType).getD 0 <
        getMaxSlidesPerType e.slide.slideType target ∧ st.1.length < target)
    · have hms : mixStep target st e = (st.1 ++ [e], setCount e.slide.slideType
          ((st.2.lookup e.slide.slideType).getD 0 + 1) st.2) := by
        unfold mixStep
        rw [if_pos hc]
      rw [hms]
      rcases ih (st.1 ++ [e], setCount e.slide.slideType
          ((st.2.lookup e.slide.slideType).getD 0 + 1) st.2) with ⟨sub, hsub, heq⟩
      exact ⟨e :: sub, hsub.cons₂ e, by rw [heq]; simp⟩
    · have hms : mixStep target st e = st := by
        unfold mixStep
        rw [if_neg hc]
      rw [hms]
      rcases ih st with ⟨sub, hsub, heq⟩
      exact ⟨sub, hsub.cons e, heq⟩

/-- C10 (amended): for every pool of scored candidates whose records are
pairwise distinct, the fill phase of `_select_slides_by_requirements`
halts — after at most `|pool|` iterations from the type-mix phase's
selection the loop guard is false.  (With duplicate records comparing
equal the loop can make no progress; see the counterexample.) -/
theorem C10_fill_terminates_on_nodup :
    ∀ (sortedSlides : List Entry) (useCase : String),
      sortedSlides.Nodup →
      fillGuard (targetSlidesFor useCase) sortedSlides
        (fillLoop sortedSlides.length (targetSlidesFor useCase) sortedSlides
          (mixPhase (targetSlidesFor useCase) sortedSlides)) = false := by
  intro sortedSlides useCase hnd
  have hsub := mixPhase_sublist (targetSlidesFor useCase) sortedSlides
  exact fillLoop_halts_aux sortedSlides.length sortedSlides _ _ hnd
    (hnd.sublist hsub) (fun x hx => hsub.subset hx) (by omega)

/-- C10 counterexample: on the pool of three equal title records with use
case "sales pitch" (target 8, title cap 2), the type-mix phase selects two
records, the loop guard holds, and a fill pass changes nothing — the
source's while loop therefore spins forever, refuting the claimed
termination on lists with equal-comparing records. -/
theorem C10_counterexample :
    targetSlidesFor "sales pitch" = 8 ∧
    mixPhase 8 [dupEntry, dupEntry, dupEntry] = [dupEntry, dupEntry] ∧
    fillGuard 8 [dupEntry, dupEntry, dupEntry] [dupEntry, dupEntry] = true ∧
    fillStep [dupEntry, dupEntry, dupEntry] [dupEntry, dupEntry] =
      [dupEntry, dupEntry] := by
  refine ⟨by with_unfolding_all decide, by with_unfolding_all decide,
    by with_unfolding_all decide, by with_unfolding_all decide⟩

/-- C10 witness: the termination theorem applied to a two-record
duplicate-free pool. -/
theorem C10_witness :
    fillGuard (targetSlidesFor "quarterly") [distinctEntry1, distinctEntry2]
      (fillLoop (List.length [distinctEntry1, distinctEntry2])
        (targetSlidesFor "quarterly") [distinctEntry1, distinctEntry2]
        (mixPhase (targetSlidesFor "quarterly")
          [distinctEntry1, distinctEntry2])) = false :=
  C10_fill_terminates_on_nodup [distinctEntry1, distinctEntry2] "quarterly"
    (by with_unfolding_all decide)

/-! ### Claim C2, concrete refutation -/

/-- C2 counterexample: on a pool of 11 low-confidence candidates (no high
or medium selections, running total 0 < 10) the policy backfills all 11 —
beyond the minimum viable deck size of 10 — refuting the claim that
low-confidence candidates never pad the deck past that minimum. -/
theorem C2_counterexample :
    (matchSlides (fun _ => .noClient) (fun _ => 0) pool11).countP
      (fun r => r.action == some "full_generation") = 11 ∧
    ¬ ((matchSlides (fun _ => .noClient) (fun _ => 0) pool11).length ≤ 10) := by
  refine ⟨by with_unfolding_all decide, by with_unfolding_all decide⟩

end ContentMatcher
